import Mathlib

/-!
# Verification of the skills_agent repository

Shallow embedding of the skills_agent Python sources:
* `src/skills_agent/tools.py`   — the Tool Security Gateway
* `src/skills_agent/memory.py`  — the four-layer memory helpers
* `src/skills_agent/nodes.py`   — the LangGraph nodes and routers
* `src/skills_agent/main.py`    — skill-file learning persistence

External collaborators (the regex engine, the filesystem, the subprocess
runner, the LLM endpoints) are passed in as explicit oracles, so every
definition stays executable; everything the repository itself computes is
translated literally.
-/

namespace SkillsAgent

/-! ## Small string helpers shared by the embeddings -/

/-- A single-quote character, kept as a named constant. -/
def squoteChar : Char := Char.ofNat 39

/-- The single-quote character as a one-character string. -/
def squote : String := String.mk [squoteChar]

/-- Index of the first occurrence of `pat` in `hay` (character lists),
mirroring Python `str.find` / `str.index`. -/
def findSub (pat : List Char) : List Char → Option Nat
  | [] => if pat = [] then some 0 else none
  | c :: t =>
    if pat.isPrefixOf (c :: t) then some 0
    else (findSub pat t).map (· + 1)

/-- Python `pat in hay` substring containment. -/
def containsSub (hay pat : String) : Bool :=
  (findSub pat.data hay.data).isSome

/-- Python `str.replace` for a one-character pattern (the only shape of
`replace` the sources use): substitute `rep` for every occurrence of
`pat`. -/
def replaceChar (pat : Char) (rep : List Char) : List Char → List Char
  | [] => []
  | c :: t => (if c = pat then rep else [c]) ++ replaceChar pat rep t

/-- String wrapper for `replaceChar`. -/
def strReplaceChar (s : String) (pat : Char) (rep : String) : String :=
  String.mk (replaceChar pat rep.data s.data)

/-- Fuel-indexed general substring replacement (left to right,
non-overlapping), used only for template interpolation. -/
def replaceSubAux : Nat → List Char → List Char → List Char → List Char
  | 0, _, _, hay => hay
  | fuel + 1, pat, rep, hay =>
    match hay with
    | [] => []
    | c :: t =>
      if pat ≠ [] && pat.isPrefixOf (c :: t) then
        rep ++ replaceSubAux fuel pat rep ((c :: t).drop pat.length)
      else c :: replaceSubAux fuel pat rep t

/-- General substring replacement on strings. -/
def replaceSub (s pat rep : String) : String :=
  String.mk (replaceSubAux s.data.length pat.data rep.data s.data)

/-- Tag check: does `s` begin with `tag`?  Used for the `[SECURITY
BLOCKED]` and `[ERROR]` refusal tags. -/
def hasTag (s tag : String) : Bool :=
  tag.data.isPrefixOf s.data

/-! ## Gateway: `tools.py`

`_validate_and_build`, `safe_cli_executor` and `safe_py_runner` are embedded
with the regex engine, the blocked-pattern scanner and the subprocess runner
as oracles.  The pieces the code computes itself (path normalisation,
`shlex.quote`, template interpolation, the validation order) are literal. -/

/-- Characters Python `shlex.quote` treats as safe: ASCII letters, digits,
underscore, and the characters at-sign, percent, plus, equals, colon, comma,
dot, slash, dash (the complement class searched by `shlex._find_unsafe`
under `re.ASCII`). -/
def shlexSafeChar (c : Char) : Bool :=
  (Char.ofNat 97 ≤ c && c ≤ Char.ofNat 122) ||
  (Char.ofNat 65 ≤ c && c ≤ Char.ofNat 90) ||
  (Char.ofNat 48 ≤ c && c ≤ Char.ofNat 57) ||
  c = Char.ofNat 95 || c = Char.ofNat 64 || c = Char.ofNat 37 ||
  c = Char.ofNat 43 || c = Char.ofNat 61 || c = Char.ofNat 58 ||
  c = Char.ofNat 44 || c = Char.ofNat 46 || c = Char.ofNat 47 ||
  c = Char.ofNat 45

/-- Python `shlex.quote`: empty strings and strings with an unsafe character
are wrapped in POSIX single quotes (embedded quotes become the
quote, double-quote, quote, double-quote, quote dance). -/
def shlexQuote (s : String) : String :=
  if s = "" then squote ++ squote
  else if s.data.all shlexSafeChar then s
  else squote ++
    (strReplaceChar s squoteChar (squote ++ "\"" ++ squote ++ "\"" ++ squote)) ++ squote

/-- One CLI whitelist entry (`cli_whitelist.<tool_name>` in the YAML
config): a command template, per-slot full-match regex sources, and a
timeout. -/
structure ToolSpec where
  template : String
  params : List (String × String)
  timeout : Nat
deriving Repr, DecidableEq

/-- The gateway configuration: whitelist plus blocked-pattern regex
sources. -/
structure GatewayConfig where
  cliWhitelist : List (String × ToolSpec)
  blockedPatterns : List String
deriving Repr, DecidableEq

/-- The external regex engine: `fullmatch re s` decides Python
`re.fullmatch(re, s)`, `search re s` decides `re.search(re, s)`. -/
structure RegexOracle where
  fullmatch : String → String → Bool
  search : String → String → Bool

/-- `_normalise_path_params`: any parameter whose validation rule contains
an escaped backslash (the two-character string of two backslashes), or whose
key is `path`, `src` or `dst`, has its forward slashes replaced by
backslashes. -/
def normalisePathParams (params : List (String × String))
    (paramRules : List (String × String)) : List (String × String) :=
  params.map fun kv =>
    let rule := ((paramRules.lookup kv.1).getD "")
    if containsSub rule "\\\\" || kv.1 = "path" || kv.1 = "src" || kv.1 = "dst" then
      (kv.1, strReplaceChar kv.2 '/' "\\")
    else
      (kv.1, kv.2)

/-- Python `str.format(**quoted)`: substitute every `{slot}` placeholder.
The embedded templates contain only plain slot names and the substituted
values contain no braces, so a left fold of replacements is exact. -/
def formatTemplate (template : String) (vals : List (String × String)) : String :=
  vals.foldl (fun acc kv => replaceSub acc ("\x7b" ++ kv.1 ++ "\x7d") kv.2) template

/-- `_validate_and_build`: look up the whitelist entry, normalise path
parameters, require a full regex match for every declared slot (missing
values validate as the empty string), `shlex.quote` every value, interpolate
the template, and finally scan the assembled command against the blocked
patterns.  `ToolSecurityError` is an `Except.error`. -/
def validateAndBuild (cfg : GatewayConfig) (re : RegexOracle)
    (toolName : String) (params0 : List (String × String)) :
    Except String (String × Nat) :=
  match cfg.cliWhitelist.lookup toolName with
  | none => .error ("Tool " ++ toolName ++ " is not in the whitelist.")
  | some spec =>
    match spec.params.find? (fun rule =>
        !(re.fullmatch rule.2
          (((normalisePathParams params0 spec.params).lookup rule.1).getD ""))) with
    | some rule =>
      .error ("Parameter " ++ rule.1 ++ " value does not match allowed pattern " ++ rule.2)
    | none =>
      match cfg.blockedPatterns.find? (fun pat => re.search pat
          (formatTemplate spec.template
            ((normalisePathParams params0 spec.params).map fun kv =>
              (kv.1, shlexQuote kv.2)))) with
      | some pat => .error ("Command blocked by security policy (matched pattern: " ++ pat ++ ")")
      | none =>
        .ok (formatTemplate spec.template
          ((normalisePathParams params0 spec.params).map fun kv =>
            (kv.1, shlexQuote kv.2)), spec.timeout)

/-- `safe_cli_executor`: run the validated command through the subprocess
runner oracle `run`; a `ToolSecurityError` becomes a `[SECURITY BLOCKED]`
tagged string. -/
def safeCliExecutor (cfg : GatewayConfig) (re : RegexOracle)
    (run : String → Nat → String)
    (toolName : String) (params : List (String × String)) : String :=
  match validateAndBuild cfg re toolName params with
  | .ok (command, timeout) => run command timeout
  | .error msg => "[SECURITY BLOCKED] " ++ msg

/-- `_cmd_quote`.
Modelled from the spec: the per-slot quoting step of validate-and-build that
`src/skills_agent/tools.py` is missing (only `tests/test_tools.py` imports
`_cmd_quote`).  Spec 4.1 step 4: values accepted by a conservative
path-safe regex pass through verbatim; all others are wrapped in the host
shell literal-quote form, which on a CMD host is double quotes, never POSIX
single quotes. -/
def cmdQuote (s : String) : String :=
  if s ≠ "" && s.data.all (fun c =>
      c.isAlphanum || c = '\\' || c = '.' || c = '_' || c = '-' || c = ':') then s
  else "\"" ++ s ++ "\""

/-! ### `safe_py_runner`

Its env-var and argument validation uses `re.Pattern.match` on patterns
anchored as caret ... dollar.  In Python, dollar (without `re.MULTILINE`)
matches at the end of the string *or just before a newline at the end of
the string*, so each check also accepts its language followed by one
trailing newline.  The embeddings below keep that semantics exactly. -/

/-- Drop one trailing newline character, if present (the extra position at
which a Python dollar anchor matches). -/
def stripTrailingNewline (cs : List Char) : List Char :=
  match cs.getLast? with
  | some c => if c = '\n' then cs.dropLast else cs
  | none => cs

/-- First character of an env key: `[A-Z_]`. -/
def envKeyHeadChar (c : Char) : Bool :=
  (Char.ofNat 65 ≤ c && c ≤ Char.ofNat 90) || c = '_'

/-- Later characters of an env key: `[A-Z0-9_]`. -/
def envKeyTailChar (c : Char) : Bool :=
  (Char.ofNat 65 ≤ c && c ≤ Char.ofNat 90) ||
  (Char.ofNat 48 ≤ c && c ≤ Char.ofNat 57) || c = '_'

/-- The restricted alphabet shared by arg values and env values:
ASCII letters, digits, underscore, dot, slash, colon, at-sign, equals,
dash. -/
def restrictedChar (c : Char) : Bool :=
  (Char.ofNat 97 ≤ c && c ≤ Char.ofNat 122) ||
  (Char.ofNat 65 ≤ c && c ≤ Char.ofNat 90) ||
  (Char.ofNat 48 ≤ c && c ≤ Char.ofNat 57) ||
  c = '_' || c = '.' || c = '/' || c = ':' || c = '@' || c = '=' || c = '-'

/-- Membership in the language of `[A-Z_][A-Z0-9_]*` (an exact full match,
with no trailing-newline allowance): the reading the spec sentence
`env keys must match [A-Z_][A-Z0-9_]*` denotes. -/
def strictEnvKeyMatch (s : String) : Bool :=
  match s.data with
  | [] => false
  | c :: rest => envKeyHeadChar c && rest.all envKeyTailChar

/-- Membership in the language of the restricted value alphabet, starred
(exact full match, no trailing-newline allowance). -/
def strictEnvValMatch (s : String) : Bool :=
  s.data.all restrictedChar

/-- `env_key_pattern.match(k)` for the anchored pattern over `[A-Z_]` then
`[A-Z0-9_]` starred: Python semantics, so one trailing newline is also
accepted. -/
def pyEnvKeyMatch (s : String) : Bool :=
  match stripTrailingNewline s.data with
  | [] => false
  | c :: rest => envKeyHeadChar c && rest.all envKeyTailChar

/-- `env_val_pattern.match(v)` for the anchored starred restricted
alphabet: Python semantics, so one trailing newline is also accepted. -/
def pyEnvValMatch (s : String) : Bool :=
  (stripTrailingNewline s.data).all restrictedChar

/-- `arg_pattern.match(arg)` for the anchored plus-quantified restricted
alphabet (at least one character, same trailing-newline allowance). -/
def pyArgMatch (s : String) : Bool :=
  match stripTrailingNewline s.data with
  | [] => false
  | cs => cs.all restrictedChar

/-- The env-var validation loop of `safe_py_runner`: the first entry whose
key or value fails its pattern yields the corresponding block message. -/
def checkEnvVars : List (String × String) → Option String
  | [] => none
  | (k, v) :: rest =>
    if !pyEnvKeyMatch k then some ("Env var key is invalid: " ++ k)
    else if !pyEnvValMatch v then some ("Env var value is invalid: " ++ v)
    else checkEnvVars rest

/-- Filesystem oracle for `safe_py_runner`, all predicates taken on the
slash-normalised script name: `allowed` decides whether the resolved
candidate lies under `scripts` or `skills` (the two `is_relative_to`
checks), `suffixIsPy` decides whether the resolved candidate has suffix
`.py`, and `exists?` decides `Path.exists`. -/
structure FsOracle where
  allowed : String → Bool
  suffixIsPy : String → Bool
  exists? : String → Bool

/-- Outcome of `safe_py_runner`: a tagged refusal string, or the spawned
subprocess described by its argv list and environment mapping. -/
inductive PyRunResult where
  | blocked (msg : String)
  | errorMsg (msg : String)
  | run (argv : List String) (env : String → Option String)

/-- The merged subprocess environment of `safe_py_runner`:
`{**os.environ, **env_vars}` (the later loop re-adding the two
`TRANSCRIPT_API` keys only writes values the merge already contains). -/
def mergedEnv (osEnv envVars : List (String × String)) (k : String) : Option String :=
  (envVars.lookup k).orElse (fun _ => osEnv.lookup k)

/-- `safe_py_runner`: normalise backslashes, confine the script path,
require the `.py` suffix, validate arguments, validate env vars, check
existence, then spawn `python script args...` (arguments are passed through
`shlex.quote` into the argv list, exactly as the source does) with the
merged environment. -/
def safePyRunner (fs : FsOracle) (osEnv : List (String × String))
    (scriptName : String) (args : List String)
    (envVars : List (String × String)) : PyRunResult :=
  if !fs.allowed (strReplaceChar scriptName '\\' "/") then
    .blocked ("Script path must be inside scripts or skills. Got: " ++ scriptName)
  else if !fs.suffixIsPy (strReplaceChar scriptName '\\' "/") then
    .blocked "Only .py files are allowed."
  else
    match args.find? (fun a => !pyArgMatch a) with
    | some a => .blocked ("Argument contains forbidden characters: " ++ a)
    | none =>
      match checkEnvVars envVars with
      | some msg => .blocked msg
      | none =>
        if !fs.exists? (strReplaceChar scriptName '\\' "/") then
          .errorMsg ("Script not found: " ++ scriptName)
        else
          .run (["python", strReplaceChar scriptName '\\' "/"] ++ args.map shlexQuote)
            (mergedEnv osEnv envVars)

/-! ## Memory: `memory.py` -/

/-- `append_skill_memory`: append one `k=v` line per `key_outputs` entry;
an empty mapping returns `current` unchanged, and a falsy (empty) `current`
is replaced by the new entries without a separating newline. -/
def appendSkillMemory (current : String) (keyOutputs : List (String × String)) : String :=
  if keyOutputs = [] then current
  else
    let newEntries := String.intercalate "\n" (keyOutputs.map fun kv => kv.1 ++ "=" ++ kv.2)
    if current = "" then newEntries
    else current ++ "\n" ++ newEntries

/-- `format_skill_memory`: substitute the human placeholder when empty. -/
def formatSkillMemory (memory : String) : String :=
  if memory = "" then "(empty — no cross-step data yet)" else memory

/-- `clear_loop_messages`. -/
def clearLoopMessages : List Unit := []

/-! ## Data model: `models.py`

`StepSchema` is embedded with the field names `nodes.py` (and
`tests/test_graph.py`) use: `optimizer_instruction` and
`evaluator_instruction`. -/

/-- Evaluator verdict. -/
inductive EvalResult where
  | PASS
  | FAIL
deriving Repr, DecidableEq

/-- One executable step of a compiled plan. -/
structure StepSchema where
  index : Nat
  optimizerInstruction : String
  evaluatorInstruction : String
  toolsHint : List String := []
  dependsOn : List Nat := []
deriving Repr, DecidableEq

/-- Structured output of the Evaluator. -/
structure EvaluationOutput where
  verdict : EvalResult
  feedback : String
  keyOutputs : List (String × String) := []
deriving Repr, DecidableEq

/-- A structured tool call carried on an assistant message. -/
structure ToolCall where
  name : String
  args : List (String × String) := []
deriving Repr, DecidableEq

/-- Message roles in the loop context L3. -/
inductive MsgKind where
  | system
  | user
  | assistant
  | toolResult
deriving Repr, DecidableEq

/-- A message in L3; `id` is the identifier LangChain assigns, used by the
`RemoveMessage` tombstones. -/
structure Msg where
  id : Nat
  kind : MsgKind
  content : String
  toolCalls : List ToolCall := []
deriving Repr, DecidableEq

/-- The LangGraph execution state (`AgentState`).  `last_evaluation` holds a
serialised `EvaluationOutput`; the serialisation round-trips, so it is
embedded as the parsed value, with `none` for the unparsable empty-string
sentinel the planner and prepare nodes write. -/
structure AgentState where
  steps : List StepSchema
  currentStepIndex : Nat
  stepRetryCount : Nat
  maxRetries : Nat
  skillMemory : String
  messages : List Msg
  lastEvaluation : Option EvaluationOutput
  rawInput : String
  planApproved : Bool
  stepToolCallCount : Nat
  currentLoopCount : Nat
deriving Repr, DecidableEq

/-- An operation on the L3 message list: LangChain `RemoveMessage`
tombstones or ordinary appended messages. -/
inductive MsgOp where
  | add (m : Msg)
  | remove (id : Nat)
deriving Repr, DecidableEq

/-- One step of the LangGraph `add_messages` reducer: a message whose id is
already present replaces it in place, otherwise it is appended; a
`RemoveMessage` deletes the message with that id. -/
def applyMsgOp (acc : List Msg) (op : MsgOp) : List Msg :=
  match op with
  | .remove i => acc.filter (fun m => m.id ≠ i)
  | .add m =>
    if acc.any (fun m2 => m2.id = m.id) then
      acc.map (fun m2 => if m2.id = m.id then m else m2)
    else acc ++ [m]

/-- The LangGraph `add_messages` reducer. -/
def addMessages (ms : List Msg) (ops : List MsgOp) : List Msg :=
  ops.foldl applyMsgOp ms

/-- The partial state dictionary a node returns; `none` marks a key absent
from the returned dict. -/
structure Delta where
  steps : Option (List StepSchema) := none
  currentStepIndex : Option Nat := none
  stepRetryCount : Option Nat := none
  maxRetries : Option Nat := none
  skillMemory : Option String := none
  messagesOps : Option (List MsgOp) := none
  lastEvaluation : Option (Option EvaluationOutput) := none
  rawInput : Option String := none
  planApproved : Option Bool := none
  stepToolCallCount : Option Nat := none
  currentLoopCount : Option Nat := none
deriving Repr, DecidableEq

/-- Merge a node delta into the state; the `messages` channel goes through
the `add_messages` reducer, every other channel is last-write-wins. -/
def applyDelta (s : AgentState) (d : Delta) : AgentState where
  steps := d.steps.getD s.steps
  currentStepIndex := d.currentStepIndex.getD s.currentStepIndex
  stepRetryCount := d.stepRetryCount.getD s.stepRetryCount
  maxRetries := d.maxRetries.getD s.maxRetries
  skillMemory := d.skillMemory.getD s.skillMemory
  messages := match d.messagesOps with
    | none => s.messages
    | some ops => addMessages s.messages ops
  lastEvaluation := d.lastEvaluation.getD s.lastEvaluation
  rawInput := d.rawInput.getD s.rawInput
  planApproved := d.planApproved.getD s.planApproved
  stepToolCallCount := d.stepToolCallCount.getD s.stepToolCallCount
  currentLoopCount := d.currentLoopCount.getD s.currentLoopCount

/-! ## Nodes and routers: `nodes.py` -/

/-- `_ANCHOR_EVERY_N_TOOL_CALLS`. -/
def anchorEveryNToolCalls : Nat := 3

/-- `_STUCK_LOOP_THRESHOLD`. -/
def stuckLoopThreshold : Nat := 8

/-- `_EVALUATOR_MAX_TOOL_ROUNDS`. -/
def evaluatorMaxToolRounds : Nat := 5

/-- `_ATTEMPTS_COMPLETE_SIGNAL`. -/
def attemptsCompleteSignal : String := "[ATTEMPTS_COMPLETE]"

/-- The fully formatted system prompt of `prepare_step_context`
(`OPTIMIZER_SYSTEM` with the global context and tool docs substituted); its
text does not influence any control decision, so it is a single abstract
string parameter. -/
structure PromptCtx where
  optimizerSystemPrompt : String

/-- `prepare_step_context`: clear L3 through `RemoveMessage` tombstones for
every existing message, seed the fresh system and user pair, and reset the
per-step counters.  Returns `none` when `steps[current_step_index]` would
raise.  `fresh` numbers the two new messages. -/
def prepareStepContext (ctx : PromptCtx) (s : AgentState) (fresh : Nat) :
    Option Delta :=
  (s.steps.get? s.currentStepIndex).map fun step =>
    let userContent :=
      "<skill_memory>\n" ++ formatSkillMemory s.skillMemory ++ "\n</skill_memory>\n\n" ++
      "<instruction>\n## Step " ++ toString step.index ++ " — Your Task\n\n" ++
      step.optimizerInstruction ++
      "\n\nWhen you have completed this task, stop making tool calls and " ++
      "respond with `[ATTEMPTS_COMPLETE]` followed by a plain-text summary " ++
      "of what you accomplished."
    { messagesOps := some
        (s.messages.map (fun m => MsgOp.remove m.id) ++
          [MsgOp.add ⟨fresh, .system, ctx.optimizerSystemPrompt, []⟩,
           MsgOp.add ⟨fresh + 1, .user, userContent, []⟩])
      stepRetryCount := some 0
      stepToolCallCount := some 0
      lastEvaluation := some none
      currentLoopCount := some 0 }

/-- `optimizer_agent`: append the LLM response verbatim and accumulate the
cumulative tool-call counter.  The response is the opaque chat endpoint
output, passed in as `response`. -/
def optimizerAgent (s : AgentState) (response : Msg) : Delta :=
  { messagesOps := some [MsgOp.add response]
    stepToolCallCount := some (s.stepToolCallCount + response.toolCalls.length) }

/-- `_logging_tool_executor`: append one tool-result message per tool call
of the latest assistant message (contents come from the gateway, abstracted
by `results`) and increment `current_loop_count`. -/
def toolExecutor (s : AgentState) (fresh : Nat) (results : Nat → String) : Delta :=
  let calls := match s.messages.getLast? with
    | some m => m.toolCalls
    | none => []
  { messagesOps := some ((List.range calls.length).map fun i =>
      MsgOp.add ⟨fresh + i, .toolResult, results i, []⟩)
    currentLoopCount := some (s.currentLoopCount + 1) }

/-- `evaluator_agent`, reduced to its effect on the persistent state: the
phase-1 verification rounds happen on a local message list that is
discarded, so the node appends the synthetic feedback user message, stores
the structured verdict, and increments `step_retry_count`.  The structured
verdict of the opaque evaluator endpoint is the `evaluation` parameter;
`none` is returned when `steps[current_step_index]` would raise. -/
def evaluatorAgent (s : AgentState) (evaluation : EvaluationOutput)
    (fresh : Nat) : Option Delta :=
  (s.steps.get? s.currentStepIndex).map fun _ =>
    let feedback := "[Evaluator] Verdict: " ++
      (match evaluation.verdict with | .PASS => "PASS" | .FAIL => "FAIL") ++
      "\nFeedback: " ++ evaluation.feedback
    { messagesOps := some [MsgOp.add ⟨fresh, .user, feedback, []⟩]
      lastEvaluation := some (some evaluation)
      stepRetryCount := some (s.stepRetryCount + 1) }

/-- `commit_step`: parse `last_evaluation` (`none` when the stored string
would not parse), append the key outputs to L2 and advance the step
index. -/
def commitStep (s : AgentState) : Option Delta :=
  s.lastEvaluation.map fun evaluation =>
    { skillMemory := some (appendSkillMemory s.skillMemory evaluation.keyOutputs)
      currentStepIndex := some (s.currentStepIndex + 1) }

/-- `human_intervention` (from `graph.py`): reset the retry budget. -/
def humanIntervention (_s : AgentState) : Delta :=
  { stepRetryCount := some 0 }

/-- `route_step`. -/
def routeStep (s : AgentState) : String :=
  if s.currentStepIndex ≥ s.steps.length then "end" else "prepare_step_context"

/-- `route_optimizer_output`: stuck-loop guard first, then tool execution,
then evaluation (with or without the completion signal — both text branches
route to the evaluator).  `none` when `messages[-1]` would raise. -/
def routeOptimizerOutput (s : AgentState) : Option String :=
  (s.messages.getLast?).map fun lastMsg =>
    if lastMsg.toolCalls ≠ [] ∧ s.currentLoopCount > stuckLoopThreshold then
      "prepare_step_context"
    else if lastMsg.toolCalls ≠ [] then
      "tool_executor"
    else
      "evaluator_agent"

/-- `route_evaluator_output`: PASS commits; FAIL retries while
`step_retry_count < max_retries` and otherwise escalates.  `none` when the
stored `last_evaluation` would not parse. -/
def routeEvaluatorOutput (s : AgentState) : Option String :=
  s.lastEvaluation.map fun evaluation =>
    if evaluation.verdict = .PASS then "commit_step"
    else if s.stepRetryCount < s.maxRetries then "optimizer_agent"
    else "human_intervention"

/-! ## The inner-loop machine

`graph.py` wires the nodes into a cycle driven by the two routers.  The
machine below replays that wiring with the opaque LLM endpoints supplied as
a script of events, producing the trace of nodes executed.  It stops at
`commit_step`, `human_intervention`, the end of the script, or fuel
exhaustion. -/

/-- Graph nodes of the inner loop. -/
inductive Node where
  | prepare
  | optimizer
  | toolExec
  | evaluator
  | commit
  | human
deriving Repr, DecidableEq

/-- One opaque LLM endpoint output: an Optimizer chat response (text plus
tool calls) or an Evaluator structured verdict. -/
inductive LlmEvent where
  | optResp (content : String) (toolCalls : List ToolCall)
  | evalResp (evaluation : EvaluationOutput)
deriving Repr, DecidableEq

/-- The conditional edge map of `graph.py` after `optimizer_agent`,
extended with the `prepare_step_context` target the router can return. -/
def optTarget (s : AgentState) : Option Node :=
  match routeOptimizerOutput s with
  | some r =>
    if r = "prepare_step_context" then some .prepare
    else if r = "tool_executor" then some .toolExec
    else if r = "evaluator_agent" then some .evaluator
    else none
  | none => none

/-- The conditional edge map of `graph.py` after `evaluator_agent`. -/
def evalTarget (s : AgentState) : Option Node :=
  match routeEvaluatorOutput s with
  | some r =>
    if r = "commit_step" then some .commit
    else if r = "optimizer_agent" then some .optimizer
    else if r = "human_intervention" then some .human
    else none
  | none => none

/-- Execute the inner loop: returns the list of nodes executed, in order.
`fresh` supplies unused message ids.  A node that would raise, an event of
the wrong shape, or an unmapped route halts the machine. -/
def runInner (ctx : PromptCtx) (results : Nat → String) :
    Nat → Node → AgentState → Nat → List LlmEvent → List Node
  | 0, _, _, _, _ => []
  | fuel + 1, node, s, fresh, evs =>
    match node with
    | .prepare =>
      match prepareStepContext ctx s fresh with
      | none => [.prepare]
      | some d => .prepare :: runInner ctx results fuel .optimizer (applyDelta s d) (fresh + 2) evs
    | .optimizer =>
      match evs with
      | .optResp content toolCalls :: rest =>
        let s2 := applyDelta s (optimizerAgent s ⟨fresh, .assistant, content, toolCalls⟩)
        (.optimizer : Node) ::
          (match optTarget s2 with
           | some n => runInner ctx results fuel n s2 (fresh + 1) rest
           | none => [])
      | _ => []
    | .toolExec =>
      let s2 := applyDelta s (toolExecutor s fresh results)
      .toolExec :: runInner ctx results fuel .optimizer s2 (fresh + 16) evs
    | .evaluator =>
      match evs with
      | .evalResp evaluation :: rest =>
        match evaluatorAgent s evaluation fresh with
        | none => [.evaluator]
        | some d =>
          let s2 := applyDelta s d
          (.evaluator : Node) ::
            (match evalTarget s2 with
             | some n => runInner ctx results fuel n s2 (fresh + 1) rest
             | none => [])
      | _ => []
    | .commit => [.commit]
    | .human => [.human]

/-! ## Skill-file learning persistence: `main.py` -/

/-- First half of `_append_skill_learning`: ensure the section header
exists via substring containment, appending a fresh header at EOF when
missing. -/
def ensureHeader (existing0 header : String) : String :=
  if containsSub existing0 header then existing0
  else existing0 ++ "\n\n" ++ header ++ "\n"

/-- Second half of `_append_skill_learning`: find the header (the `none`
branch mirrors the `str.index` call and is unreachable because the header
was just ensured), then insert the entry immediately before the next
`\n## ` occurrence after the header, or at EOF when there is none. -/
def insertEntry (text header entry : String) : String :=
  match findSub header.data text.data with
  | none => text ++ entry
  | some headerPos =>
    match findSub ("\n## ".data)
        (text.data.drop (headerPos + header.data.length)) with
    | none => text ++ entry
    | some nextSection =>
      String.mk (text.data.take (headerPos + header.data.length + nextSection)) ++
        entry ++
        String.mk (text.data.drop (headerPos + header.data.length + nextSection))

/-- `_append_skill_learning` with the UTC timestamp passed in. -/
def appendSkillLearning (existing0 sectionName timestamp content : String) : String :=
  insertEntry (ensureHeader existing0 ("## " ++ sectionName)) ("## " ++ sectionName)
    ("\n### [" ++ timestamp ++ "]\n" ++ content ++ "\n")

/-! ## Concrete fixtures used by witnesses and counterexamples -/

/-- A regex oracle that accepts every full match and finds no blocked
pattern (standing in for permissive config regexes). -/
def permissiveRegexOracle : RegexOracle :=
  ⟨fun _ _ => true, fun _ _ => false⟩

/-- The `list_files` whitelist entry as the test suite describes it: a
`dir` command template over one `path` slot with a 10 second timeout (the
regex source is irrelevant here because the oracle decides matching). -/
def listFilesSpec : ToolSpec :=
  ⟨"dir \x7bpath\x7d", [("path", "")], 10⟩

/-- A one-entry gateway configuration holding `list_files`. -/
def listFilesConfig : GatewayConfig :=
  ⟨[("list_files", listFilesSpec)], []⟩

/-- A subprocess runner echoing the command it was given. -/
def echoRunner : String → Nat → String := fun command _ => "ran: " ++ command

/-- A filesystem oracle on which every script resolves under an approved
directory, carries the `.py` suffix and exists. -/
def fsAllow : FsOracle :=
  ⟨fun _ => true, fun _ => true, fun _ => true⟩

/-- A one-step plan used by the concrete states below. -/
def oneStep : StepSchema :=
  ⟨0, "write the word ok to out.txt", "the file out.txt contains ok", [], []⟩

/-- A second step, so that a commit from step 0 still leaves a current
step. -/
def secondStep : StepSchema :=
  ⟨1, "report the word ok", "the report mentions ok", [], []⟩

/-- A state as it stands right after a PASS verdict: the retry counter was
incremented by the evaluator and L3 holds the seeded pair, the assistant
completion and the evaluator feedback. -/
def afterPassState : AgentState where
  steps := [oneStep, secondStep]
  currentStepIndex := 0
  stepRetryCount := 1
  maxRetries := 3
  skillMemory := ""
  messages :=
    [⟨0, .system, "system prompt", []⟩,
     ⟨1, .user, "instruction", []⟩,
     ⟨2, .assistant, "[ATTEMPTS_COMPLETE] wrote the file", []⟩,
     ⟨3, .user, "[Evaluator] Verdict: PASS\nFeedback: ok", []⟩]
  lastEvaluation := some ⟨.PASS, "ok", [("written_path", "out.txt")]⟩
  rawInput := "skill"
  planApproved := true
  stepToolCallCount := 0
  currentLoopCount := 0

/-- A state whose latest Optimizer message carries a tool call while the
loop counter already passed the stuck threshold
(`current_loop_count = STUCK_THRESHOLD + 1 = 9`). -/
def stuckState : AgentState where
  steps := [oneStep]
  currentStepIndex := 0
  stepRetryCount := 0
  maxRetries := 3
  skillMemory := "written_path=out.txt"
  messages :=
    [⟨0, .system, "system prompt", []⟩,
     ⟨1, .user, "instruction", []⟩,
     ⟨2, .assistant, "", [⟨"safe_cli_executor", [("tool_name", "read_file")]⟩]⟩]
  lastEvaluation := none
  rawInput := "skill"
  planApproved := true
  stepToolCallCount := 2
  currentLoopCount := 9

/-- A fresh-step state with a zero cumulative tool-call counter. -/
def freshStepState : AgentState where
  steps := [oneStep]
  currentStepIndex := 0
  stepRetryCount := 0
  maxRetries := 3
  skillMemory := ""
  messages :=
    [⟨0, .system, "system prompt", []⟩,
     ⟨1, .user, "instruction", []⟩]
  lastEvaluation := none
  rawInput := "skill"
  planApproved := true
  stepToolCallCount := 0
  currentLoopCount := 0

/-- An Optimizer response carrying three tool calls, enough to drive the
cumulative counter to the anchor period in one turn. -/
def threeCallResponse : Msg :=
  ⟨10, .assistant, "",
    [⟨"safe_cli_executor", []⟩, ⟨"safe_cli_executor", []⟩, ⟨"safe_cli_executor", []⟩]⟩

/-- Prompt context fixture. -/
def promptCtx0 : PromptCtx := ⟨"optimizer system prompt"⟩

/-- Tool-result content fixture for the machine. -/
def toolResults0 : Nat → String := fun _ => "(no output)"

/-- An Optimizer completion turn. -/
def evC : LlmEvent := .optResp "[ATTEMPTS_COMPLETE] done" []

/-- An Optimizer tool-call turn. -/
def evT : LlmEvent := .optResp "" [⟨"safe_cli_executor", [("tool_name", "read_file")]⟩]

/-- An Evaluator FAIL verdict turn. -/
def evF : LlmEvent := .evalResp ⟨.FAIL, "not yet", []⟩

/-- The event script refuting the global retry bound: two failed
evaluations, then ten tool-call turns (the tenth trips the stuck-loop
replan, which resets `step_retry_count`), then three more failed
evaluations of the same step before escalation. -/
def unboundedRetryScript : List LlmEvent :=
  [evC, evF, evC, evF] ++ List.replicate 10 evT ++ [evC, evF, evC, evF, evC, evF]

/-- Number of EVALUATE entries in a trace. -/
def countEvaluate : List Node → Nat
  | [] => 0
  | nd :: t => (if nd = Node.evaluator then 1 else 0) + countEvaluate t

/-- The trace the machine produces on the unbounded-retry script, starting
the step from PREPARE on `freshStepState`. -/
def unboundedRetryTrace : List Node :=
  runInner promptCtx0 toolResults0 64 .prepare freshStepState 100 unboundedRetryScript

/-! ## Helper lemmas -/

/-- If `findSub` reports index `n`, then `pat` really occurs at `n`. -/
theorem findSub_isPrefixOf {pat hay : List Char} {n : Nat}
    (h : findSub pat hay = some n) : pat.isPrefixOf (hay.drop n) := by
  induction hay generalizing n with
  | nil =>
    simp only [findSub] at h
    split at h
    · rename_i hp
      cases h
      simp [hp]
    · cases h
  | cons c t ih =>
    simp only [findSub] at h
    split at h
    · rename_i hp
      cases h
      simpa using hp
    · rcases Option.map_eq_some'.mp h with ⟨m, hm, rfl⟩
      simpa using ih hm

/-- A list prefix survives extending the larger list on the right. -/
theorem isPrefixOf_append_right {l1 l2 l3 : List Char}
    (h : l1.isPrefixOf l2) : l1.isPrefixOf (l2 ++ l3) := by
  rw [List.isPrefixOf_iff_prefix] at *
  exact h.trans (List.prefix_append l2 l3)

/-- A refusal string built by prepending a tag carries that tag. -/
theorem hasTag_append {tag p : String} (s : String)
    (h : tag.data.isPrefixOf p.data) : hasTag (p ++ s) tag = true := by
  simp only [hasTag, String.data_append]
  exact isPrefixOf_append_right h

/-- A clean env-var validation pass means every entry passed both
patterns. -/
theorem checkEnvVars_eq_none {l : List (String × String)}
    (h : checkEnvVars l = none) :
    ∀ kv ∈ l, pyEnvKeyMatch kv.1 = true ∧ pyEnvValMatch kv.2 = true := by
  induction l with
  | nil => simp
  | cons kv rest ih =>
    obtain ⟨k, v⟩ := kv
    simp only [checkEnvVars] at h
    split at h
    · cases h
    · split at h
      · cases h
      · rename_i hk hv
        intro x hx
        rcases List.mem_cons.mp hx with rfl | hx2
        · exact ⟨by simpa using hk, by simpa using hv⟩
        · exact ih h x hx2

/-- Folding the removal tombstones of every message of `ms` over any
accumulator whose ids all come from `ms` empties the accumulator. -/
theorem foldl_removeAll (ms : List Msg) :
    ∀ acc : List Msg, (∀ m ∈ acc, ∃ m2 ∈ ms, m2.id = m.id) →
      List.foldl applyMsgOp acc (ms.map fun m => MsgOp.remove m.id) = [] := by
  induction ms with
  | nil =>
    intro acc h
    have : acc = [] := by
      cases acc with
      | nil => rfl
      | cons a t =>
        rcases h a (by simp) with ⟨m2, hm2, _⟩
        simp at hm2
    simp [this]
  | cons m0 rest ih =>
    intro acc h
    simp only [List.map_cons, List.foldl_cons]
    apply ih
    intro m hm
    simp only [applyMsgOp] at hm
    have hmem := List.mem_filter.mp hm
    rcases h m hmem.1 with ⟨m2, hm2, hid⟩
    rcases List.mem_cons.mp hm2 with heq | hm2r
    · exfalso
      have hne : m.id ≠ m0.id := by simpa using hmem.2
      rw [heq] at hid
      exact hne hid.symm
    · exact ⟨m2, hm2r, hid⟩

/-- Removing every live id and then adding two fresh distinct messages
leaves exactly those two messages: the `prepare_step_context` wipe. -/
theorem addMessages_wipe (ms : List Msg) (m1 m2 : Msg) (h : m1.id ≠ m2.id) :
    addMessages ms (ms.map (fun m => MsgOp.remove m.id) ++
      [MsgOp.add m1, MsgOp.add m2]) = [m1, m2] := by
  unfold addMessages
  rw [List.foldl_append]
  rw [foldl_removeAll ms ms (fun m hm => ⟨m, hm, rfl⟩)]
  simp [applyMsgOp, h]

/-! ## Claim theorems -/

/-- **C1.** Any `safe_cli_executor(tool_name, params)` call whose result
carries neither the `[SECURITY BLOCKED]` nor the `[ERROR]` tag went through
a whitelist hit, and every declared parameter slot of that entry fully
matched its regex on the supplied value after path-separator
normalisation. -/
theorem safeCliExecutor_untagged_implies_validated
    (cfg : GatewayConfig) (re : RegexOracle) (runCmd : String → Nat → String)
    (toolName : String) (params : List (String × String))
    (hb : hasTag (safeCliExecutor cfg re runCmd toolName params) "[SECURITY BLOCKED]" = false)
    (_he : hasTag (safeCliExecutor cfg re runCmd toolName params) "[ERROR]" = false) :
    ∃ spec, cfg.cliWhitelist.lookup toolName = some spec ∧
      ∀ rule ∈ spec.params,
        re.fullmatch rule.2
          (((normalisePathParams params spec.params).lookup rule.1).getD "") = true := by
  unfold safeCliExecutor at hb
  cases hv : validateAndBuild cfg re toolName params with
  | error msg =>
    rw [hv] at hb
    rw [hasTag_append msg (by decide)] at hb
    cases hb
  | ok pair =>
    clear hb
    unfold validateAndBuild at hv
    split at hv
    · cases hv
    · rename_i spec hl
      split at hv
      · cases hv
      · rename_i hf
        refine ⟨spec, hl, ?_⟩
        intro rule hr
        have := List.find?_eq_none.mp hf rule hr
        simpa using this

/-- **C1 witness.** On a concrete permissive oracle the executor answers
untagged, and the theorem instantiates. -/
theorem safeCliExecutor_untagged_implies_validated_witness :
    ∃ spec, listFilesConfig.cliWhitelist.lookup "list_files" = some spec ∧
      ∀ rule ∈ spec.params,
        permissiveRegexOracle.fullmatch rule.2
          (((normalisePathParams [("path", "out.txt")] spec.params).lookup rule.1).getD "")
            = true :=
  safeCliExecutor_untagged_implies_validated listFilesConfig permissiveRegexOracle
    echoRunner "list_files" [("path", "out.txt")] (by decide) (by decide)

/-- **C2.** The quoting step of validate-and-build is `shlex.quote` on
every value: on the path-safe value `skills\ects_skill\tmp` it produces a
POSIX single-quoted string instead of passing it through verbatim, so the
assembled `list_files` command carries literal single quotes — exactly what
the repository test suite for `_cmd_quote` forbids. -/
theorem shlexQuote_corrupts_path_safe_value :
    shlexQuote "skills\\ects_skill\\tmp"
      = squote ++ "skills\\ects_skill\\tmp" ++ squote ∧
    cmdQuote "skills\\ects_skill\\tmp" = "skills\\ects_skill\\tmp" ∧
    validateAndBuild listFilesConfig permissiveRegexOracle "list_files"
      [("path", "skills/ects_skill/tmp")]
      = .ok ("dir " ++ squote ++ "skills\\ects_skill\\tmp" ++ squote, 10) ∧
    containsSub ("dir " ++ squote ++ "skills\\ects_skill\\tmp" ++ squote) squote = true := by
  refine ⟨by decide, by decide, by rfl, by decide⟩

/-- **C3 counterexample.** The env-var gate of `safe_py_runner` uses
`re.match` with a dollar anchor, which also matches just before a trailing
newline: the key consisting of `A` followed by a newline is outside the
language of `[A-Z_][A-Z0-9_]*` yet is forwarded into the subprocess
environment. -/
theorem safePyRunner_forwards_newline_key :
    safePyRunner fsAllow [] "scripts/hello.py" [] [("A\n", "x")]
      = .run ["python", "scripts/hello.py"] (mergedEnv [] [("A\n", "x")]) ∧
    mergedEnv [] [("A\n", "x")] "A\n" = some "x" ∧
    strictEnvKeyMatch "A\n" = false ∧
    pyEnvKeyMatch "A\n" = true := by
  refine ⟨rfl, by decide, by decide, by decide⟩

/-- **C3 (amended).** Whenever `safe_py_runner` actually spawns the
subprocess, every supplied env entry passed the key pattern `[A-Z_]` then
`[A-Z0-9_]` starred and the restricted value alphabet *under Python
`re.match` dollar semantics* (each also admitting one trailing newline),
and every such entry is present in the subprocess environment; an entry
failing either check prevents the spawn entirely. -/
theorem safePyRunner_env_gate (fs : FsOracle) (osEnv : List (String × String))
    (scriptName : String) (args : List String)
    (envVars : List (String × String)) (argv : List String)
    (env : String → Option String)
    (h : safePyRunner fs osEnv scriptName args envVars = .run argv env) :
    (∀ kv ∈ envVars, pyEnvKeyMatch kv.1 = true ∧ pyEnvValMatch kv.2 = true) ∧
    (∀ k v, envVars.lookup k = some v → env k = some v) := by
  unfold safePyRunner at h
  split at h
  · cases h
  · split at h
    · cases h
    · split at h
      · cases h
      · rename_i hargs
        cases henv : checkEnvVars envVars with
        | some msg => rw [henv] at h; cases h
        | none =>
          rw [henv] at h
          by_cases hex : (!fs.exists? (strReplaceChar scriptName '\\' "/")) = true
          · rw [if_pos hex] at h
            cases h
          · rw [if_neg hex] at h
            rw [PyRunResult.run.injEq] at h
            obtain ⟨h1, h2⟩ := h
            subst h2
            refine ⟨checkEnvVars_eq_none henv, ?_⟩
            intro k v hk
            simp [mergedEnv, hk]

/-- **C3 witness.** A concrete clean run instantiates the amended
theorem. -/
theorem safePyRunner_env_gate_witness :
    pyEnvKeyMatch "HOST" = true ∧ pyEnvValMatch "localhost" = true :=
  (safePyRunner_env_gate fsAllow [] "scripts/hello.py" []
    [("HOST", "localhost")] _ _ rfl).1 ("HOST", "localhost") (by simp)

/-- **C8.** `append_skill_memory` returns `current` unchanged on an empty
mapping, always leaves `current` as a prefix of its result, appends exactly
the newline-joined `k=v` lines (one per entry) otherwise, and therefore
every commit only ever extends `skill_memory`. -/
theorem appendSkillMemory_monotone :
    (∀ cur, appendSkillMemory cur [] = cur) ∧
    (∀ cur kvs, ∃ tail, appendSkillMemory cur kvs = cur ++ tail) ∧
    (∀ cur kvs, kvs ≠ [] → appendSkillMemory cur kvs =
      cur ++ (if cur = "" then "" else "\n") ++
        String.intercalate "\n" (kvs.map fun kv => kv.1 ++ "=" ++ kv.2)) ∧
    (∀ s d, commitStep s = some d →
      ∃ tail, (applyDelta s d).skillMemory = s.skillMemory ++ tail) := by
  have hmain : ∀ cur kvs, kvs ≠ [] → appendSkillMemory cur kvs =
      cur ++ (if cur = "" then "" else "\n") ++
        String.intercalate "\n" (kvs.map fun kv => kv.1 ++ "=" ++ kv.2) := by
    intro cur kvs hne
    unfold appendSkillMemory
    rw [if_neg hne]
    by_cases hc : cur = ""
    · subst hc
      simp
    · rw [if_neg hc, if_neg hc]
  have hpre : ∀ cur kvs, ∃ tail, appendSkillMemory cur kvs = cur ++ tail := by
    intro cur kvs
    by_cases hne : kvs = []
    · subst hne
      exact ⟨"", by simp [appendSkillMemory]⟩
    · exact ⟨_, by rw [hmain cur kvs hne, String.append_assoc]⟩
  refine ⟨fun cur => by simp [appendSkillMemory], hpre, hmain, ?_⟩
  intro s d hd
  unfold commitStep at hd
  cases hle : s.lastEvaluation with
  | none => rw [hle] at hd; cases hd
  | some evaluation =>
    rw [hle] at hd
    cases hd
    simpa [applyDelta] using hpre s.skillMemory evaluation.keyOutputs

/-- **C8 witness.** Concrete instantiation of the empty-mapping identity,
the appended-lines shape and the commit-extends-memory conjuncts. -/
theorem appendSkillMemory_monotone_witness :
    appendSkillMemory "a=1" [] = "a=1" ∧
    appendSkillMemory "a=1" [("b", "2"), ("c", "3")] =
      "a=1" ++ (if ("a=1" : String) = "" then "" else "\n") ++
        String.intercalate "\n"
          (([("b", "2"), ("c", "3")] : List (String × String)).map
            fun kv => kv.1 ++ "=" ++ kv.2) ∧
    (∃ tail, (applyDelta afterPassState ((commitStep afterPassState).getD {})).skillMemory
        = afterPassState.skillMemory ++ tail) := by
  refine ⟨appendSkillMemory_monotone.1 "a=1",
    appendSkillMemory_monotone.2.2.1 "a=1" [("b", "2"), ("c", "3")] (by decide),
    appendSkillMemory_monotone.2.2.2 afterPassState
      ((commitStep afterPassState).getD {}) (by decide)⟩

/-- **C10.** The `commit_step` delta holds exactly the `skill_memory` and
`current_step_index` keys, so applying it leaves the plan, the budgets, the
retry counter, the raw input, the last verdict and the L3 messages
untouched. -/
theorem commitStep_frame (s : AgentState) (d : Delta)
    (h : commitStep s = some d) :
    d.skillMemory.isSome = true ∧ d.currentStepIndex.isSome = true ∧
    d.steps = none ∧ d.stepRetryCount = none ∧ d.maxRetries = none ∧
    d.messagesOps = none ∧ d.lastEvaluation = none ∧ d.rawInput = none ∧
    d.planApproved = none ∧ d.stepToolCallCount = none ∧
    d.currentLoopCount = none ∧
    (applyDelta s d).steps = s.steps ∧
    (applyDelta s d).maxRetries = s.maxRetries ∧
    (applyDelta s d).stepRetryCount = s.stepRetryCount ∧
    (applyDelta s d).rawInput = s.rawInput ∧
    (applyDelta s d).lastEvaluation = s.lastEvaluation ∧
    (applyDelta s d).messages = s.messages := by
  unfold commitStep at h
  cases hle : s.lastEvaluation with
  | none => rw [hle] at h; cases h
  | some evaluation =>
    rw [hle] at h
    cases h
    refine ⟨rfl, rfl, rfl, rfl, rfl, rfl, rfl, rfl, rfl, rfl, rfl,
      rfl, rfl, rfl, rfl, ?_, rfl⟩
    simp [applyDelta, hle]

/-- **C10 witness.** The frame theorem at the concrete post-PASS state. -/
theorem commitStep_frame_witness :
    (applyDelta afterPassState ((commitStep afterPassState).getD {})).stepRetryCount
      = afterPassState.stepRetryCount ∧
    (applyDelta afterPassState ((commitStep afterPassState).getD {})).messages
      = afterPassState.messages := by
  have h := commitStep_frame afterPassState
    ((commitStep afterPassState).getD {}) (by decide)
  exact ⟨h.2.2.2.2.2.2.2.2.2.2.2.2.2.1, h.2.2.2.2.2.2.2.2.2.2.2.2.2.2.2.2⟩

/-- **C4 counterexample.** `commit_step` neither resets the retry counter
nor clears L3: at a concrete post-PASS state with `step_retry_count = 1`
and four loop messages, the committed state still has
`step_retry_count = 1` and a non-empty message list. -/
theorem commitStep_leaves_retry_and_messages :
    (commitStep afterPassState).isSome = true ∧
    (applyDelta afterPassState ((commitStep afterPassState).getD {})).stepRetryCount = 1 ∧
    (applyDelta afterPassState ((commitStep afterPassState).getD {})).messages.length = 4 := by
  decide

/-- **C4 (amended).** `commit_step` leaves `step_retry_count` and the loop
messages exactly as they were; the reset to `0` and the L3 wipe happen at
the next `prepare_step_context`, whose output state carries
`step_retry_count = 0` and exactly the fresh system-plus-user pair. -/
theorem commitStep_reset_happens_at_prepare (s : AgentState) (d : Delta)
    (h : commitStep s = some d) :
    (applyDelta s d).stepRetryCount = s.stepRetryCount ∧
    (applyDelta s d).messages = s.messages ∧
    (∀ ctx fresh d2, prepareStepContext ctx (applyDelta s d) fresh = some d2 →
      (applyDelta (applyDelta s d) d2).stepRetryCount = 0 ∧
      (applyDelta (applyDelta s d) d2).messages.map Msg.kind
        = [MsgKind.system, MsgKind.user]) := by
  have hframe : (applyDelta s d).stepRetryCount = s.stepRetryCount ∧
      (applyDelta s d).messages = s.messages := by
    unfold commitStep at h
    cases hle : s.lastEvaluation with
    | none => rw [hle] at h; cases h
    | some evaluation =>
      rw [hle] at h
      cases h
      exact ⟨rfl, rfl⟩
  refine ⟨hframe.1, hframe.2, ?_⟩
  intro ctx fresh d2 h2
  unfold prepareStepContext at h2
  cases hstep : (applyDelta s d).steps.get? (applyDelta s d).currentStepIndex with
  | none => rw [hstep] at h2; cases h2
  | some step =>
    rw [hstep] at h2
    cases h2
    constructor
    · rfl
    · show (addMessages (applyDelta s d).messages _).map Msg.kind = _
      rw [addMessages_wipe _ _ _ (by simp)]
      rfl

set_option maxRecDepth 4096 in
/-- **C4 amended witness.** The amended theorem at the concrete post-PASS
state: the subsequent prepare resets the counter and reseeds L3. -/
theorem commitStep_reset_happens_at_prepare_witness :
    (applyDelta afterPassState ((commitStep afterPassState).getD {})).stepRetryCount
      = afterPassState.stepRetryCount ∧
    (applyDelta
      (applyDelta afterPassState ((commitStep afterPassState).getD {}))
      ((prepareStepContext promptCtx0
        (applyDelta afterPassState ((commitStep afterPassState).getD {})) 100).getD {})).stepRetryCount
      = 0 := by
  have h := commitStep_reset_happens_at_prepare afterPassState
    ((commitStep afterPassState).getD {}) (by decide)
  refine ⟨h.1, (h.2.2 promptCtx0 100
    ((prepareStepContext promptCtx0
      (applyDelta afterPassState ((commitStep afterPassState).getD {})) 100).getD {})
    (by decide)).1⟩

/-- **C6.** When the latest Optimizer message carries tool calls while
`current_loop_count` exceeds the stuck threshold (in particular at
threshold + 1), the router output is `prepare_step_context`, not
`tool_executor`; re-preparing then wipes L3 down to the fresh system and
user pair while leaving L2 skill memory untouched. -/
theorem stuck_loop_routes_to_prepare (s : AgentState) (lastMsg : Msg)
    (h1 : s.messages.getLast? = some lastMsg)
    (h2 : lastMsg.toolCalls ≠ [])
    (h3 : s.currentLoopCount > stuckLoopThreshold) :
    routeOptimizerOutput s = some "prepare_step_context" ∧
    routeOptimizerOutput s ≠ some "tool_executor" ∧
    (∀ ctx fresh d, prepareStepContext ctx s fresh = some d →
      (applyDelta s d).skillMemory = s.skillMemory ∧
      (applyDelta s d).messages.map Msg.kind = [MsgKind.system, MsgKind.user]) := by
  have hr : routeOptimizerOutput s = some "prepare_step_context" := by
    unfold routeOptimizerOutput
    rw [h1]
    simp only [Option.map_some']
    rw [if_pos ⟨h2, h3⟩]
  refine ⟨hr, by rw [hr]; simp, ?_⟩
  intro ctx fresh d hd
  unfold prepareStepContext at hd
  cases hstep : s.steps.get? s.currentStepIndex with
  | none => rw [hstep] at hd; cases hd
  | some step =>
    rw [hstep] at hd
    cases hd
    refine ⟨rfl, ?_⟩
    show (addMessages s.messages _).map Msg.kind = _
    rw [addMessages_wipe _ _ _ (by simp)]
    rfl

set_option maxRecDepth 4096 in
/-- **C6 witness.** The stuck state at `current_loop_count = 9` routes to
prepare and keeps its skill memory. -/
theorem stuck_loop_routes_to_prepare_witness :
    routeOptimizerOutput stuckState = some "prepare_step_context" ∧
    (applyDelta stuckState ((prepareStepContext promptCtx0 stuckState 100).getD {})).skillMemory
      = stuckState.skillMemory := by
  have h := stuck_loop_routes_to_prepare stuckState
    ⟨2, .assistant, "", [⟨"safe_cli_executor", [("tool_name", "read_file")]⟩]⟩
    (by decide) (by decide) (by decide)
  exact ⟨h.1, (h.2.2 promptCtx0 100
    ((prepareStepContext promptCtx0 stuckState 100).getD {}) (by decide)).1⟩

/-- **C7.** The Optimizer node only accumulates `step_tool_call_count` "for
L3 anchoring" (its own comment) but never injects the anchor: even on the
turn that drives the cumulative counter to the anchor period
`ANCHOR_EVERY_N_TOOL_CALLS = 3`, the only message appended to L3 is the
assistant response itself — no synthetic user message with a
`<primary_directive>` block ever reaches L3. -/
theorem optimizerAgent_never_appends_anchor :
    (optimizerAgent freshStepState threeCallResponse).stepToolCallCount
      = some anchorEveryNToolCalls ∧
    anchorEveryNToolCalls % anchorEveryNToolCalls = 0 ∧
    (optimizerAgent freshStepState threeCallResponse).messagesOps
      = some [MsgOp.add threeCallResponse] ∧
    ((optimizerAgent freshStepState threeCallResponse).messagesOps.getD []).all
      (fun op => match op with
        | MsgOp.add m => !(m.kind = MsgKind.user && containsSub m.content "<primary_directive>")
        | MsgOp.remove _ => true) = true := by
  decide

/-- Unfolding lemma for `countEvaluate`. -/
theorem countEvaluate_cons (nd : Node) (t : List Node) :
    countEvaluate (nd :: t) = (if nd = Node.evaluator then 1 else 0) + countEvaluate t :=
  rfl

/-- Replan-free retry bound: any inner-loop trace that never re-enters
PREPARE contains at most `max_retries - step_retry_count + 1` EVALUATE
entries before the machine stops (it stops at COMMIT and at
ESCALATE). -/
theorem runInner_eval_bound (ctx : PromptCtx) (results : Nat → String) :
    ∀ fuel node s fresh evs,
      Node.prepare ∉ runInner ctx results fuel node s fresh evs →
      countEvaluate (runInner ctx results fuel node s fresh evs)
        ≤ (s.maxRetries - s.stepRetryCount) + 1 := by
  intro fuel
  induction fuel with
  | zero =>
    intro node s fresh evs _
    simp [runInner, countEvaluate]
  | succ n ih =>
    intro node s fresh evs hp
    cases node with
    | prepare =>
      exfalso
      apply hp
      simp only [runInner]
      cases prepareStepContext ctx s fresh <;> simp
    | optimizer =>
      cases evs with
      | nil => simp [runInner, countEvaluate]
      | cons ev rest =>
        cases ev with
        | evalResp e => simp [runInner, countEvaluate]
        | optResp content toolCalls =>
          simp only [runInner] at hp ⊢
          cases ht : optTarget (applyDelta s
              (optimizerAgent s ⟨fresh, .assistant, content, toolCalls⟩)) with
          | none =>
            simp [countEvaluate]
          | some n2 =>
            rw [ht] at hp
            simp only [List.mem_cons, not_or] at hp
            have hsub := ih n2 (applyDelta s
              (optimizerAgent s ⟨fresh, .assistant, content, toolCalls⟩)) (fresh + 1) rest hp.2
            simpa [countEvaluate] using hsub
    | toolExec =>
      simp only [runInner] at hp ⊢
      simp only [List.mem_cons, not_or] at hp
      have hsub := ih .optimizer (applyDelta s (toolExecutor s fresh results))
        (fresh + 16) evs hp.2
      simpa [countEvaluate] using hsub
    | evaluator =>
      cases evs with
      | nil => simp [runInner, countEvaluate]
      | cons ev rest =>
        cases ev with
        | optResp content toolCalls => simp [runInner, countEvaluate]
        | evalResp e =>
          simp only [runInner] at hp ⊢
          cases hev : evaluatorAgent s e fresh with
          | none =>
            simp [countEvaluate]
          | some d =>
            rw [hev] at hp
            simp only [] at hp ⊢
            rcases Option.map_eq_some'.mp hev with ⟨step, hstep, hdeq⟩
            have hdretry : d.stepRetryCount = some (s.stepRetryCount + 1) := by
              rw [← hdeq]
            have hdlast : d.lastEvaluation = some (some e) := by
              rw [← hdeq]
            have hdmax : d.maxRetries = none := by
              rw [← hdeq]
            have hs2r : (applyDelta s d).stepRetryCount = s.stepRetryCount + 1 := by
              simp [applyDelta, hdretry]
            have hs2m : (applyDelta s d).maxRetries = s.maxRetries := by
              simp [applyDelta, hdmax]
            have hs2l : (applyDelta s d).lastEvaluation = some e := by
              simp [applyDelta, hdlast]
            cases htv : evalTarget (applyDelta s d) with
            | none =>
              simp [htv, countEvaluate]
            | some n2 =>
              rw [htv] at hp
              simp only [] at hp ⊢
              simp only [List.mem_cons, not_or] at hp
              have hroute : n2 = Node.commit ∨ n2 = Node.human ∨
                  (n2 = Node.optimizer ∧ s.stepRetryCount + 1 < s.maxRetries) := by
                unfold evalTarget routeEvaluatorOutput at htv
                rw [hs2l] at htv
                simp only [Option.map_some'] at htv
                by_cases hv : e.verdict = EvalResult.PASS
                · rw [if_pos hv] at htv
                  simp at htv
                  exact Or.inl htv.symm
                · rw [if_neg hv] at htv
                  rw [hs2r, hs2m] at htv
                  by_cases hlt : s.stepRetryCount + 1 < s.maxRetries
                  · rw [if_pos hlt] at htv
                    simp at htv
                    exact Or.inr (Or.inr ⟨htv.symm, hlt⟩)
                  · rw [if_neg hlt] at htv
                    simp at htv
                    exact Or.inr (Or.inl htv.symm)
              rcases hroute with hc | hh | ⟨ho, hlt⟩
              · subst hc
                have hz : countEvaluate
                    (runInner ctx results n .commit (applyDelta s d) (fresh + 1) rest) = 0 := by
                  cases n <;> simp [runInner, countEvaluate]
                rw [countEvaluate_cons, hz, if_pos rfl]
                omega
              · subst hh
                have hz : countEvaluate
                    (runInner ctx results n .human (applyDelta s d) (fresh + 1) rest) = 0 := by
                  cases n <;> simp [runInner, countEvaluate]
                rw [countEvaluate_cons, hz, if_pos rfl]
                omega
              · subst ho
                have hsub := ih .optimizer (applyDelta s d) (fresh + 1) rest hp.2
                rw [hs2r, hs2m] at hsub
                rw [countEvaluate_cons, if_pos rfl]
                omega
    | commit => simp [runInner, countEvaluate]
    | human => simp [runInner, countEvaluate]

/-- **C5 (amended).** After every Evaluator verdict the router sends PASS
to commit, FAIL with `step_retry_count < max_retries` back to the
Optimizer, and FAIL with the budget exhausted to escalation; and within any
replan-free stretch of a step (no intervening re-PREPARE — the stuck-loop
replan resets `step_retry_count` and restarts the budget), the
OPTIMIZE-to-EVALUATE transition happens at most `max_retries + 1` times
before a commit or an escalation. -/
theorem routeEvaluator_routing_and_bound :
    (∀ s e, s.lastEvaluation = some e → e.verdict = EvalResult.PASS →
      routeEvaluatorOutput s = some "commit_step") ∧
    (∀ s e, s.lastEvaluation = some e → e.verdict = EvalResult.FAIL →
      s.stepRetryCount < s.maxRetries →
      routeEvaluatorOutput s = some "optimizer_agent") ∧
    (∀ s e, s.lastEvaluation = some e → e.verdict = EvalResult.FAIL →
      s.maxRetries ≤ s.stepRetryCount →
      routeEvaluatorOutput s = some "human_intervention") ∧
    (∀ ctx results fuel node s fresh evs,
      s.stepRetryCount = 0 →
      Node.prepare ∉ runInner ctx results fuel node s fresh evs →
      countEvaluate (runInner ctx results fuel node s fresh evs)
        ≤ s.maxRetries + 1) := by
  refine ⟨?_, ?_, ?_, ?_⟩
  · intro s e hle hv
    unfold routeEvaluatorOutput
    rw [hle]
    simp [hv]
  · intro s e hle hv hlt
    unfold routeEvaluatorOutput
    rw [hle]
    simp [hv, hlt]
  · intro s e hle hv hge
    unfold routeEvaluatorOutput
    rw [hle]
    simp [hv, Nat.not_lt.mpr hge]
  · intro ctx results fuel node s fresh evs hr hp
    have hb := runInner_eval_bound ctx results fuel node s fresh evs hp
    rw [hr] at hb
    simpa using hb

/-- **C5 witness.** The PASS route at the concrete post-PASS state, and the
bound on a concrete replan-free trace with two failed evaluations. -/
theorem routeEvaluator_routing_and_bound_witness :
    routeEvaluatorOutput afterPassState = some "commit_step" ∧
    countEvaluate (runInner promptCtx0 toolResults0 32 .optimizer freshStepState 50
      [evC, evF, evC, evF]) ≤ freshStepState.maxRetries + 1 := by
  refine ⟨routeEvaluator_routing_and_bound.1 afterPassState
      ⟨.PASS, "ok", [("written_path", "out.txt")]⟩ rfl rfl,
    routeEvaluator_routing_and_bound.2.2.2 promptCtx0 toolResults0 32 .optimizer
      freshStepState 50 [evC, evF, evC, evF] rfl (by decide)⟩

/-- **C5 counterexample.** The claim as stated fails across a stuck-loop
replan: on a concrete script the machine performs five OPTIMIZE-to-EVALUATE
transitions on one step (`max_retries + 1 = 4`) with no commit in the
trace, and the escalation only comes after the fifth evaluation. -/
theorem retry_bound_fails_across_replan :
    freshStepState.stepRetryCount = 0 ∧
    freshStepState.maxRetries = 3 ∧
    Node.commit ∉ unboundedRetryTrace ∧
    unboundedRetryTrace.getLast? = some Node.human ∧
    countEvaluate unboundedRetryTrace = 5 := by
  refine ⟨rfl, rfl, by decide, by decide, by decide⟩

/-- Unfolding equation for `findSub` on a cons cell. -/
theorem findSub_cons (pat : List Char) (c : Char) (t : List Char) :
    findSub pat (c :: t)
      = if pat.isPrefixOf (c :: t) then some 0 else (findSub pat t).map (· + 1) :=
  rfl

/-- A reported occurrence fits inside the haystack. -/
theorem findSub_add_length_le {pat hay : List Char} {n : Nat}
    (h : findSub pat hay = some n) : n + pat.length ≤ hay.length := by
  induction hay generalizing n with
  | nil =>
    simp only [findSub] at h
    split at h
    · rename_i hp
      cases h
      simp [hp]
    · cases h
  | cons c t ih =>
    rw [findSub_cons] at h
    split at h
    · rename_i hp
      cases h
      have := (List.isPrefixOf_iff_prefix.mp hp).length_le
      simpa using this
    · rcases Option.map_eq_some'.mp h with ⟨m, hm, rfl⟩
      have := ih hm
      simp only [List.length_cons]
      omega

/-- A newline-free pattern that is a prefix of `x ++ newline :: y` is
already a prefix of `x`. -/
theorem isPrefixOf_no_newline {pat : List Char} :
    ∀ {x y : List Char}, ('\n' : Char) ∉ pat →
      pat.isPrefixOf (x ++ '\n' :: y) → pat.isPrefixOf x := by
  induction pat with
  | nil =>
    intro x y _ _
    simp
  | cons p ps ih =>
    intro x y hnn h
    cases x with
    | nil =>
      exfalso
      simp only [List.nil_append, List.isPrefixOf, Bool.and_eq_true, beq_iff_eq] at h
      exact hnn (h.1 ▸ List.mem_cons_self p ps)
    | cons b bs =>
      simp only [List.cons_append, List.isPrefixOf, Bool.and_eq_true, beq_iff_eq] at h ⊢
      exact ⟨h.1, ih (fun hmem => hnn (List.mem_cons_of_mem _ hmem)) h.2⟩

/-- Searching past a clean prefix: when a newline-free pattern does not
occur in `a`, its first occurrence in `a ++ newline :: y` sits in the
newline tail, shifted by the length of `a`. -/
theorem findSub_of_none_append {pat a y : List Char}
    (hnn : ('\n' : Char) ∉ pat) (hnone : findSub pat a = none) :
    findSub pat (a ++ '\n' :: y)
      = (findSub pat ('\n' :: y)).map (· + a.length) := by
  induction a with
  | nil =>
    cases hfy : findSub pat ('\n' :: y) <;> simp [hfy]
  | cons c t ih =>
    rw [findSub_cons] at hnone
    by_cases hp : pat.isPrefixOf (c :: t)
    · rw [if_pos hp] at hnone
      cases hnone
    · rw [if_neg hp] at hnone
      have ht : findSub pat t = none := by
        cases hft : findSub pat t
        · rfl
        · rw [hft] at hnone
          simp at hnone
      have hp2 : ¬ pat.isPrefixOf (c :: (t ++ '\n' :: y)) := by
        intro hcontra
        exact hp (isPrefixOf_no_newline hnn (by simpa using hcontra))
      show findSub pat ((c :: t) ++ '\n' :: y) = _
      rw [List.cons_append, findSub_cons, if_neg hp2, ih ht]
      cases hfy : findSub pat ('\n' :: y) <;>
        simp [List.length_cons, Nat.add_assoc]

/-- A freshly appended header block `newline newline header ...` holds its
first occurrence of the (nonempty, newline-free) header at index 2. -/
theorem findSub_fresh_header {pat y : List Char} (hne : pat ≠ [])
    (hnn : ('\n' : Char) ∉ pat) :
    findSub pat ('\n' :: '\n' :: (pat ++ y)) = some 2 := by
  obtain ⟨p, ps, rfl⟩ : ∃ p ps, pat = p :: ps := by
    cases pat with
    | nil => exact absurd rfl hne
    | cons p ps => exact ⟨p, ps, rfl⟩
  have hpne : (p == '\n') = false := by
    have : p ≠ '\n' := fun hh => hnn (hh ▸ List.mem_cons_self p ps)
    simpa using this
  have h3 : (p :: ps).isPrefixOf ((p :: ps) ++ y) := by
    rw [List.isPrefixOf_iff_prefix]
    exact List.prefix_append _ _
  rw [findSub_cons, if_neg (by simp [List.isPrefixOf, hpne]),
    findSub_cons, if_neg (by simp [List.isPrefixOf, hpne])]
  rw [show ((p :: ps) ++ y) = p :: (ps ++ y) from rfl, findSub_cons]
  rw [if_pos (by simp only [List.cons_append] at h3; exact h3)]
  rfl

/-- `findSub` reports the first occurrence: nothing matches strictly
earlier. -/
theorem findSub_min {pat hay : List Char} {n : Nat}
    (h : findSub pat hay = some n) :
    ∀ k, k < n → ¬ pat.isPrefixOf (hay.drop k) := by
  induction hay generalizing n with
  | nil =>
    simp only [findSub] at h
    split at h
    · cases h
      intro k hk
      exact absurd hk (Nat.not_lt_zero k)
    · cases h
  | cons c t ih =>
    rw [findSub_cons] at h
    split at h
    · cases h
      intro k hk
      exact absurd hk (Nat.not_lt_zero k)
    · rename_i hp
      rcases Option.map_eq_some'.mp h with ⟨m, hm, rfl⟩
      intro k hk
      cases k with
      | zero =>
        intro hcontra
        exact hp (by simpa using hcontra)
      | succ j =>
        have := ih hm j (by omega)
        simpa using this

/-- A failed `findSub` search means the pattern occurs nowhere in the
haystack. -/
theorem findSub_none_no_occurrence {pat hay : List Char}
    (h : findSub pat hay = none) :
    ∀ k, ¬ pat.isPrefixOf (hay.drop k) := by
  induction hay with
  | nil =>
    intro k hk
    simp only [findSub] at h
    split at h
    · cases h
    · rename_i hne
      cases pat with
      | nil => exact hne rfl
      | cons p ps => simp [List.isPrefixOf] at hk
  | cons c t ih =>
    intro k hk
    rw [findSub_cons] at h
    split at h
    · cases h
    · rename_i hp
      cases k with
      | zero => exact hp (by simpa using hk)
      | succ j =>
        have ht : findSub pat t = none := by
          cases hft : findSub pat t
          · rfl
          · rw [hft] at h
            simp at h
        exact ih ht j (by simpa using hk)

/-- **C9 counterexample.** On a file whose `Success Cases` section already
holds an entry and is followed by another section, the write-into-skill
operation inserts the new entry at the *end* of the section (after `old`),
not immediately after the header as the claim states. -/
theorem appendSkillLearning_not_adjacent_to_header :
    appendSkillLearning "## Success Cases\nold\n\n## Other\n" "Success Cases" "TS" "body"
      = "## Success Cases\nold\n\n### [TS]\nbody\n\n## Other\n" ∧
    "## Success Cases\nold\n\n### [TS]\nbody\n\n## Other\n"
      ≠ "## Success Cases" ++ ("\n### [TS]\nbody\n" ++ "\nold\n\n## Other\n") := by
  exact ⟨by decide, by decide⟩

/-- **C9 (amended).** For a newline-free section name: when the header is
absent, the new section plus the timestamped entry is appended at EOF; when
the header is present, the timestamped entry is inserted *at the end of the
section* — immediately before the **next** `\n## ` occurrence after the
header (no such occurrence lies strictly between the end of the header and
the insertion point, and the EOF position is used only when no occurrence
follows the header at all) — and the file is split, not altered: the result
is `take p ++ entry ++ drop p` of the prior bytes. -/
theorem appendSkillLearning_placement
    (existing sectionName timestamp content : String)
    (hnl : ('\n' : Char) ∉ ("## " ++ sectionName).data) :
    (containsSub existing ("## " ++ sectionName) = false →
      appendSkillLearning existing sectionName timestamp content
        = existing ++ "\n\n" ++ ("## " ++ sectionName) ++ "\n" ++
          ("\n### [" ++ timestamp ++ "]\n" ++ content ++ "\n")) ∧
    (containsSub existing ("## " ++ sectionName) = true →
      ∃ headerPos insertPos,
        findSub ("## " ++ sectionName).data existing.data = some headerPos ∧
        headerPos + ("## " ++ sectionName).data.length ≤ insertPos ∧
        appendSkillLearning existing sectionName timestamp content
          = String.mk (existing.data.take insertPos) ++
            ("\n### [" ++ timestamp ++ "]\n" ++ content ++ "\n") ++
            String.mk (existing.data.drop insertPos) ∧
        (∀ k, headerPos + ("## " ++ sectionName).data.length ≤ k → k < insertPos →
          ¬ ("\n## ".data).isPrefixOf (existing.data.drop k)) ∧
        (("\n## ".data).isPrefixOf (existing.data.drop insertPos) ∨
          (insertPos = existing.data.length ∧
            ∀ k, headerPos + ("## " ++ sectionName).data.length ≤ k →
              ¬ ("\n## ".data).isPrefixOf (existing.data.drop k)))) := by
  constructor
  · -- header absent: fresh section and entry at EOF
    intro hc
    unfold appendSkillLearning ensureHeader
    rw [if_neg (by simp [hc])]
    have hdata : (existing ++ "\n\n" ++ ("## " ++ sectionName) ++ "\n").data
        = existing.data ++ '\n' :: '\n' ::
            (("## " ++ sectionName).data ++ ['\n']) := by
      rw [String.data_append, String.data_append, String.data_append]
      rw [show ("\n\n" : String).data = ['\n', '\n'] from rfl,
        show ("\n" : String).data = ['\n'] from rfl]
      simp [List.append_assoc]
    have hnone : findSub ("## " ++ sectionName).data existing.data = none := by
      unfold containsSub at hc
      cases hff : findSub ("## " ++ sectionName).data existing.data
      · rfl
      · rw [hff] at hc
        simp at hc
    have hne : ("## " ++ sectionName).data ≠ [] := by
      rw [show ("## " ++ sectionName).data = '#' :: '#' :: ' ' :: sectionName.data
        from by rw [String.data_append]; rfl]
      simp
    have hfind : findSub ("## " ++ sectionName).data
        (existing ++ "\n\n" ++ ("## " ++ sectionName) ++ "\n").data
        = some (existing.data.length + 2) := by
      rw [hdata, findSub_of_none_append hnl hnone,
        findSub_fresh_header hne hnl]
      simp [Nat.add_comm]
    unfold insertEntry
    rw [hfind]
    simp only []
    have hdrop : ((existing ++ "\n\n" ++ ("## " ++ sectionName) ++ "\n").data).drop
        (existing.data.length + 2 + ("## " ++ sectionName).data.length)
        = ['\n'] := by
      rw [hdata]
      rw [show existing.data.length + 2 + ("## " ++ sectionName).data.length
          = existing.data.length +
            (("## " ++ sectionName).data.length + 1 + 1) from by omega]
      rw [List.drop_append]
      simp only [List.drop_succ_cons]
      exact List.drop_left _ _
    rw [hdrop]
    rw [show findSub ("\n## ".data) ['\n'] = none from by decide]
  · -- header present: insertion at end of section, file split in two
    intro hc
    unfold appendSkillLearning ensureHeader
    rw [if_pos hc]
    unfold containsSub at hc
    obtain ⟨headerPos, hhp⟩ := Option.isSome_iff_exists.mp hc
    unfold insertEntry
    rw [hhp]
    simp only []
    cases hns : findSub ("\n## ".data)
        (existing.data.drop (headerPos + ("## " ++ sectionName).data.length)) with
    | none =>
      have hnowhere : ∀ k, headerPos + ("## " ++ sectionName).data.length ≤ k →
          ¬ ("\n## ".data).isPrefixOf (existing.data.drop k) := by
        intro k hk hcontra
        refine findSub_none_no_occurrence hns
          (k - (headerPos + ("## " ++ sectionName).data.length)) ?_
        rw [List.drop_drop,
          show headerPos + ("## " ++ sectionName).data.length +
            (k - (headerPos + ("## " ++ sectionName).data.length)) = k from by omega]
        exact hcontra
      refine ⟨headerPos, existing.data.length, rfl,
        findSub_add_length_le hhp, ?_, fun k hk _ => hnowhere k hk,
        Or.inr ⟨rfl, hnowhere⟩⟩
      rw [List.take_length, List.drop_length]
      rw [show String.mk existing.data = existing from rfl]
      rw [show String.mk ([] : List Char) = "" from rfl]
      simp
    | some nextSection =>
      refine ⟨headerPos,
        headerPos + ("## " ++ sectionName).data.length + nextSection, rfl,
        by omega, rfl, ?_, Or.inl ?_⟩
      · intro k hk1 hk2 hcontra
        refine findSub_min hns
          (k - (headerPos + ("## " ++ sectionName).data.length)) (by omega) ?_
        rw [List.drop_drop,
          show headerPos + ("## " ++ sectionName).data.length +
            (k - (headerPos + ("## " ++ sectionName).data.length)) = k from by omega]
        exact hcontra
      · have hpre := findSub_isPrefixOf hns
        rw [List.drop_drop] at hpre
        exact hpre

/-- **C9 witness.** The amended theorem instantiated on the concrete file
with a populated section followed by another section. -/
theorem appendSkillLearning_placement_witness :
    ∃ headerPos insertPos,
      findSub ("## " ++ "Success Cases").data
        ("## Success Cases\nold\n\n## Other\n" : String).data = some headerPos ∧
      headerPos + ("## " ++ "Success Cases").data.length ≤ insertPos ∧
      appendSkillLearning "## Success Cases\nold\n\n## Other\n" "Success Cases" "TS" "body"
        = String.mk (("## Success Cases\nold\n\n## Other\n" : String).data.take insertPos) ++
          ("\n### [" ++ "TS" ++ "]\n" ++ "body" ++ "\n") ++
          String.mk (("## Success Cases\nold\n\n## Other\n" : String).data.drop insertPos) ∧
      (∀ k, headerPos + ("## " ++ "Success Cases").data.length ≤ k → k < insertPos →
        ¬ ("\n## ".data).isPrefixOf
            (("## Success Cases\nold\n\n## Other\n" : String).data.drop k)) ∧
      (("\n## ".data).isPrefixOf
          (("## Success Cases\nold\n\n## Other\n" : String).data.drop insertPos) ∨
        (insertPos = ("## Success Cases\nold\n\n## Other\n" : String).data.length ∧
          ∀ k, headerPos + ("## " ++ "Success Cases").data.length ≤ k →
            ¬ ("\n## ".data).isPrefixOf
                (("## Success Cases\nold\n\n## Other\n" : String).data.drop k))) :=
  (appendSkillLearning_placement "## Success Cases\nold\n\n## Other\n" "Success Cases"
    "TS" "body" (by decide)).2 (by decide)
